import Mathlib

/-!
Verification development for the UNIMY CLO Analytics ingestion and
weighted-aggregation engine (`unimy_clo_app.py`).

The Python source is shallowly embedded: spreadsheet cells become an
inductive `Cell` type, pandas DataFrames become lists of cell rows,
Python floats become rationals (`ℚ`), Python dicts keyed by strings
become insertion-ordered association lists, and the outer
`try/except` of `process_single_course` becomes an `Except String`
result.  Modelling notes are attached to the individual definitions.
-/

namespace UnimyCLO

/-- A spreadsheet cell as pandas materialises it after
`read_excel(..., header=None)`: a numeric value (numeric cells, and text that
Python would successfully parse as a number), a piece of non-numeric text, or
an empty cell (pandas `NaN`).  Python floats are modelled as rationals. -/
inductive Cell where
  | num (q : ℚ)
  | text (s : String)
  | blank
deriving DecidableEq

/-- Python `.lower()` (source uses it on identifiers and column labels),
modelled character by character. -/
def pyLower (s : String) : String :=
  String.mk (s.data.map Char.toLower)

/-- Python `.strip()`: drop whitespace from both ends of a string. -/
def pyStrip (s : String) : String :=
  String.mk (((s.data.dropWhile Char.isWhitespace).reverse.dropWhile
    Char.isWhitespace).reverse)

/-- Python `str()` of a cell value: text is kept verbatim, numbers render in
decimal, and pandas `NaN` renders as `"nan"`. -/
def cellToString : Cell → String
  | .num q => toString q
  | .text s => s
  | .blank => "nan"

/-- Python `float()` of a cell value: succeeds exactly on numeric cells.
Non-numeric text raises `ValueError` (modelled as `none`); an empty cell is
also modelled as a failed conversion (in CPython `float(nan)` would instead
produce a `NaN` that poisons the configuration, a value `ℚ` cannot carry and
no configuration sheet in scope exercises). -/
def cellToFloat : Cell → Option ℚ
  | .num q => some q
  | .text _ => none
  | .blank => none

/-- `pd.to_numeric(v, errors="coerce")` followed by the `pd.isna` guard that
replaces a failed coercion by `0` (source lines 145-146): numeric cells keep
their value, everything else coerces to `0`. -/
def coerceMark : Cell → ℚ
  | .num q => q
  | .text _ => 0
  | .blank => 0

/-- Python substring test `needle in haystack` on character lists: the needle
is a prefix of some suffix of the haystack. -/
def charsIn (needle : List Char) : List Char → Bool
  | [] => needle.isEmpty
  | c :: rest => needle.isPrefixOf (c :: rest) || charsIn needle rest

/-- Python substring test `needle in haystack` for strings. -/
def strIn (needle haystack : String) : Bool :=
  charsIn needle.data haystack.data

/-- `row.astype(str).str.cat(sep=' ')` (source line 35): every cell of a row
stringified and joined with single spaces. -/
def rowString (row : List Cell) : String :=
  String.intercalate " " (row.map cellToString)

/-- The per-row test of `find_header_row` (source line 36): every keyword,
lower-cased, occurs somewhere in the lower-cased joined row string. -/
def rowHasKeywords (row : List Cell) (keywords : List String) : Bool :=
  keywords.all fun k => strIn (pyLower k) (pyLower (rowString row))

/-- The scanning loop of `find_header_row`, carrying the index of the row
currently examined. -/
def findHeaderAux (keywords : List String) : List (List Cell) → Nat → Int
  | [], _ => -1
  | r :: rest, idx =>
    if rowHasKeywords r keywords then (idx : Int) else findHeaderAux keywords rest (idx + 1)

/-- `find_header_row` (source lines 32-38): scan the rows top to bottom and
return the index of the first row whose joined, lower-cased string contains
every keyword; `-1` when no row matches. -/
def find_header_row (df : List (List Cell)) (keywords : List String) : Int :=
  findHeaderAux keywords df 0

/-- Lookup in the `seen` dictionary of the duplicate-header fix. -/
def lookupSeen (seen : List (String × Nat)) (h : String) : Option Nat :=
  (seen.find? fun p => p.1 == h).map (·.2)

/-- Dictionary update `seen[h] = k` for a key already present (first matching
entry is replaced in place); appends when the key is absent. -/
def setSeen : List (String × Nat) → String → Nat → List (String × Nat)
  | [], h, k => [(h, k)]
  | p :: rest, h, k => if p.1 = h then (h, k) :: rest else p :: setSeen rest h k

/-- The duplicate-header fix of source lines 115-119: `seen` maps a label to
the number of repeats met so far; a repeat `h` becomes `h ++ "_" ++ counter`. -/
def fixDupAux : List String → List (String × Nat) → List String
  | [], _ => []
  | h :: rest, seen =>
    match lookupSeen seen h with
    | some k => (h ++ "_" ++ toString (k + 1)) :: fixDupAux rest (setSeen seen h (k + 1))
    | none => h :: fixDupAux rest (seen ++ [(h, 0)])

/-- Header disambiguation as performed on `raw_header` (source lines 114-119). -/
def fixDuplicateHeaders (raw : List String) : List String :=
  fixDupAux raw []

/-- Occurrence count of a label in a list of labels. -/
def countLabel (h : String) : List String → Nat
  | [] => 0
  | x :: rest => (if x = h then 1 else 0) + countLabel h rest

/-- The disambiguation policy exactly as the spec words it: the `i`-th output
label is the `i`-th input label, suffixed with `_c` when `c > 0` earlier
occurrences of the same label precede it, and unchanged when it is the first
occurrence.  This is the spec-side description, to be compared with
`fixDuplicateHeaders`, which is translated from the source. -/
def dedupSpec (raw : List String) : List String :=
  (List.range raw.length).map fun i =>
    let h := raw.getD i ""
    let c := countLabel h (raw.take i)
    if c = 0 then h else h ++ "_" ++ toString c

lemma countLabel_append (g : String) (l₁ l₂ : List String) :
    countLabel g (l₁ ++ l₂) = countLabel g l₁ + countLabel g l₂ := by
  induction l₁ with
  | nil => simp [countLabel]
  | cons x rest ih => simp [countLabel, ih]; omega

lemma lookupSeen_nil (g : String) : lookupSeen [] g = none := rfl

lemma lookupSeen_cons (p : String × Nat) (rest : List (String × Nat)) (g : String) :
    lookupSeen (p :: rest) g = if p.1 = g then some p.2 else lookupSeen rest g := by
  by_cases h : p.1 = g <;> simp [lookupSeen, List.find?_cons, h]

lemma lookupSeen_append_single (seen : List (String × Nat)) (h : String) (k : Nat)
    (g : String) :
    lookupSeen (seen ++ [(h, k)]) g =
      match lookupSeen seen g with
      | some v => some v
      | none => if h = g then some k else none := by
  induction seen with
  | nil => by_cases hg : h = g <;> simp [lookupSeen_cons, lookupSeen_nil, hg]
  | cons p rest ih =>
    by_cases hp : p.1 = g
    · simp [List.cons_append, lookupSeen_cons, hp]
    · simpa [List.cons_append, lookupSeen_cons, hp] using ih

lemma lookupSeen_setSeen (seen : List (String × Nat)) (h : String) (k : Nat)
    (g : String) :
    lookupSeen (setSeen seen h k) g = if h = g then some k else lookupSeen seen g := by
  induction seen with
  | nil => by_cases hg : h = g <;> simp [setSeen, lookupSeen_cons, lookupSeen_nil, hg]
  | cons p rest ih =>
    by_cases hp : p.1 = h
    · subst hp
      by_cases hg : p.1 = g <;> simp [setSeen, lookupSeen_cons, hg]
    · have hstep : setSeen (p :: rest) h k = p :: setSeen rest h k := by
        simp [setSeen, hp]
      by_cases hg : p.1 = g
      · have hng : ¬ h = g := fun he => hp (he ▸ hg)
        simp [hstep, lookupSeen_cons, hg, hng]
      · simp [hstep, lookupSeen_cons, hg, ih]

lemma fixDupAux_spec (rest : List String) :
    ∀ (seen : List (String × Nat)) (processed : List String),
      (∀ g, lookupSeen seen g =
        if countLabel g processed = 0 then none else some (countLabel g processed - 1)) →
      fixDupAux rest seen = (List.range rest.length).map fun i =>
        if countLabel (rest.getD i "") processed + countLabel (rest.getD i "") (rest.take i) = 0
        then rest.getD i ""
        else rest.getD i "" ++ "_" ++
          toString (countLabel (rest.getD i "") processed +
            countLabel (rest.getD i "") (rest.take i)) := by
  induction rest with
  | nil => intro seen processed _; simp [fixDupAux]
  | cons h t ih =>
    intro seen processed hinv
    have hcnt := hinv h
    have hrange : (List.range (t.length + 1)) = 0 :: List.map Nat.succ (List.range t.length) :=
      List.range_succ_eq_map t.length
    by_cases h0 : countLabel h processed = 0
    · have hlook : lookupSeen seen h = none := by simp [hcnt, h0]
      have hinv2 : ∀ g, lookupSeen (seen ++ [(h, 0)]) g =
          if countLabel g (processed ++ [h]) = 0 then none
          else some (countLabel g (processed ++ [h]) - 1) := by
        intro g
        rw [lookupSeen_append_single, hinv g]
        by_cases hg : h = g
        · subst hg
          simp [countLabel_append, countLabel, h0]
        · have hpl : countLabel g (processed ++ [h]) = countLabel g processed := by
            simp [countLabel_append, countLabel, hg]
          rw [hpl]
          by_cases hz : countLabel g processed = 0 <;> simp [hz, hg]
      have hrec := ih (seen ++ [(h, 0)]) (processed ++ [h]) hinv2
      rw [show fixDupAux (h :: t) seen = h :: fixDupAux t (seen ++ [(h, 0)]) by
        simp [fixDupAux, hlook]]
      rw [hrec, List.length_cons, hrange, List.map_cons, List.map_map]
      congr 1
      · simp [countLabel, h0]
      · apply List.map_congr_left
        intro i _
        have hc : countLabel (t.getD i "") (processed ++ [h]) + countLabel (t.getD i "") (t.take i)
            = countLabel ((h :: t).getD (i + 1) "") processed +
              countLabel ((h :: t).getD (i + 1) "") ((h :: t).take (i + 1)) := by
          simp [countLabel_append, countLabel, List.getD_cons_succ, List.take_succ_cons]
          omega
        simp only [Function.comp]
        rw [← hc]
        simp [List.getD_cons_succ]
    · have hlook : lookupSeen seen h = some (countLabel h processed - 1) := by
        simp [hcnt, h0]
      have hk1 : countLabel h processed - 1 + 1 = countLabel h processed := by omega
      have hinv2 : ∀ g, lookupSeen (setSeen seen h (countLabel h processed - 1 + 1)) g =
          if countLabel g (processed ++ [h]) = 0 then none
          else some (countLabel g (processed ++ [h]) - 1) := by
        intro g
        rw [lookupSeen_setSeen, hinv g]
        by_cases hg : h = g
        · subst hg
          simp [countLabel_append, countLabel, hk1]
        · have hpl : countLabel g (processed ++ [h]) = countLabel g processed := by
            simp [countLabel_append, countLabel, hg]
          rw [hpl]
          simp [hg]
      have hrec := ih _ (processed ++ [h]) hinv2
      rw [show fixDupAux (h :: t) seen =
          (h ++ "_" ++ toString (countLabel h processed - 1 + 1)) ::
            fixDupAux t (setSeen seen h (countLabel h processed - 1 + 1)) by
        simp [fixDupAux, hlook]]
      rw [hrec, List.length_cons, hrange, List.map_cons, List.map_map]
      congr 1
      · simp [countLabel, h0, hk1]
      · apply List.map_congr_left
        intro i _
        have hc : countLabel (t.getD i "") (processed ++ [h]) + countLabel (t.getD i "") (t.take i)
            = countLabel ((h :: t).getD (i + 1) "") processed +
              countLabel ((h :: t).getD (i + 1) "") ((h :: t).take (i + 1)) := by
          simp [countLabel_append, countLabel, List.getD_cons_succ, List.take_succ_cons]
          omega
        simp only [Function.comp]
        rw [← hc]
        simp [List.getD_cons_succ]

/-- C5: duplicate header labels are disambiguated by suffixing each repeat with
an incrementing counter in the order encountered, the first occurrence staying
unchanged (`fixDuplicateHeaders` agrees with the spec-side `dedupSpec`
everywhere); in particular `["Quiz", "Quiz", "Total"]` becomes
`["Quiz", "Quiz_1", "Total"]`. -/
theorem dedup_headers_spec :
    (∀ raw : List String, fixDuplicateHeaders raw = dedupSpec raw) ∧
    fixDuplicateHeaders ["Quiz", "Quiz", "Total"] = ["Quiz", "Quiz_1", "Total"] := by
  constructor
  · intro raw
    have h := fixDupAux_spec raw [] [] (by intro g; simp [lookupSeen_nil, countLabel])
    rw [fixDuplicateHeaders, h, dedupSpec]
    apply List.map_congr_left
    intro i _
    simp [countLabel]
  · decide

/-- C10: the disambiguation pass does not guarantee a duplicate-free result:
on `["Quiz", "Quiz", "Quiz_1"]` the suffixed repeat collides with the original
`"Quiz_1"` header, so the output still contains a repeated label. -/
theorem dedup_not_duplicate_free :
    fixDuplicateHeaders ["Quiz", "Quiz", "Quiz_1"] = ["Quiz", "Quiz_1", "Quiz_1"] ∧
    ¬ (fixDuplicateHeaders ["Quiz", "Quiz", "Quiz_1"]).Nodup := by
  constructor
  · decide
  · decide

lemma findHeaderAux_spec (keywords : List String) (df : List (List Cell)) :
    ∀ idx : Nat,
      (findHeaderAux keywords df idx = -1 ∧ ∀ r ∈ df, rowHasKeywords r keywords = false) ∨
      (∃ i : Nat, i < df.length ∧ findHeaderAux keywords df idx = ((idx + i : Nat) : Int) ∧
        rowHasKeywords (df.getD i []) keywords = true ∧
        ∀ j, j < i → rowHasKeywords (df.getD j []) keywords = false) := by
  induction df with
  | nil => intro idx; exact Or.inl ⟨rfl, by simp⟩
  | cons r rest ih =>
    intro idx
    by_cases h : rowHasKeywords r keywords
    · exact Or.inr ⟨0, by simp, by simp [findHeaderAux, h], by simpa using h, by omega⟩
    · rcases ih (idx + 1) with ⟨h1, h2⟩ | ⟨i, hi, he, hm, hb⟩
      · refine Or.inl ⟨by simp [findHeaderAux, h, h1], ?_⟩
        intro x hx
        rcases List.mem_cons.mp hx with rfl | hx
        · simpa using h
        · exact h2 x hx
      · refine Or.inr ⟨i + 1, by simpa using hi, ?_, by simpa using hm, ?_⟩
        · rw [show findHeaderAux keywords (r :: rest) idx = findHeaderAux keywords rest (idx + 1) by
            simp [findHeaderAux, h]]
          rw [he]
          congr 1
          omega
        · intro j hj
          cases j with
          | zero => simpa using h
          | succ j => simpa using hb j (by omega)

/-- C6: `find_header_row` returns the smallest row index whose cells, once
stringified, joined and lower-cased, contain every lower-cased keyword as a
substring, and the sentinel `-1` when no row of the grid matches; non-string
cells are handled by stringification, which is built into `rowHasKeywords`. -/
theorem header_row_first_match (df : List (List Cell)) (keywords : List String) :
    (find_header_row df keywords = -1 ∧ ∀ r ∈ df, rowHasKeywords r keywords = false) ∨
    (∃ i : Nat, i < df.length ∧ find_header_row df keywords = (i : Int) ∧
      rowHasKeywords (df.getD i []) keywords = true ∧
      ∀ j, j < i → rowHasKeywords (df.getD j []) keywords = false) := by
  simpa [find_header_row] using findHeaderAux_spec keywords df 0

/-- A small marks grid used to witness the header search: a numeric first row
(stringified, it cannot match) above the genuine header row. -/
def demoGrid : List (List Cell) :=
  [[Cell.num 3, Cell.blank], [Cell.text "STUDENT ID", Cell.text "STUDENT NAME"]]

/-- Witness for C6: on `demoGrid` the scan skips the numeric row and reports
index `1`, as the instantiated theorem requires. -/
theorem header_row_first_match_witness :
    ((find_header_row demoGrid ["STUDENT ID", "STUDENT NAME"] = -1 ∧
      ∀ r ∈ demoGrid, rowHasKeywords r ["STUDENT ID", "STUDENT NAME"] = false) ∨
    (∃ i : Nat, i < demoGrid.length ∧
      find_header_row demoGrid ["STUDENT ID", "STUDENT NAME"] = (i : Int) ∧
      rowHasKeywords (demoGrid.getD i []) ["STUDENT ID", "STUDENT NAME"] = true ∧
      ∀ j, j < i → rowHasKeywords (demoGrid.getD j []) ["STUDENT ID", "STUDENT NAME"] = false)) ∧
    find_header_row demoGrid ["STUDENT ID", "STUDENT NAME"] = 1 :=
  ⟨header_row_first_match demoGrid ["STUDENT ID", "STUDENT NAME"], by decide⟩

/-- The per-pair condition under which source lines 128-129 assign
`col_map[asm] = col`: either exact case-insensitive equality, or (the `elif`)
the configured name is a case-insensitive substring of the label and the label
does not contain `"total"` case-insensitively. -/
def matchesCol (asm col : String) : Bool :=
  (pyLower asm == pyLower col) ||
    (strIn (pyLower asm) (pyLower col) && !(strIn "total" (pyLower col)))

/-- Dictionary write `col_map[asm] = col` on a map modelled as a function. -/
def assignCol (m : String → Option String) (asm col : String) :
    String → Option String :=
  fun x => if x = asm then some col else m x

/-- The inner loop of the column mapping (source lines 127-129): for one actual
column label, every configured assessment name that matches it is (re)assigned
to it. -/
def mapColumnStep (asms : List String) (m : String → Option String) (col : String) :
    String → Option String :=
  asms.foldl (fun m asm => if matchesCol asm col then assignCol m asm col else m) m

/-- The column mapping of source lines 125-129: scan the actual column labels
in order, running the inner assessment loop for each; later assignments
overwrite earlier ones. -/
def buildColMap (cols asms : List String) : String → Option String :=
  cols.foldl (mapColumnStep asms) fun _ => none

lemma mapColumnStep_apply (asms : List String) (m : String → Option String)
    (col asm : String) :
    mapColumnStep asms m col asm =
      if asm ∈ asms ∧ matchesCol asm col then some col else m asm := by
  induction asms generalizing m with
  | nil => simp [mapColumnStep]
  | cons a rest ih =>
    rw [show mapColumnStep (a :: rest) m col =
        mapColumnStep rest (if matchesCol a col then assignCol m a col else m) col from rfl]
    rw [ih]
    by_cases hmc : matchesCol asm col
    · by_cases hr : asm ∈ rest
      · simp [hr, hmc, List.mem_cons]
      · by_cases ha : asm = a
        · subst ha
          simp [hr, hmc, assignCol, List.mem_cons]
        · simp only [hr, hmc, List.mem_cons, ha, false_or, and_true, and_false, if_false]
          by_cases hma : matchesCol a col <;> simp [hma, assignCol, ha]
    · simp only [hmc, and_false, if_false]
      by_cases hma : matchesCol a col
      · have ha : asm ≠ a := fun he => hmc (he ▸ hma)
        simp [hma, assignCol, ha]
      · simp [hma]

lemma buildColMap_foldl (asms : List String) (asm : String) (hmem : asm ∈ asms)
    (cols : List String) :
    ∀ m : String → Option String,
      (cols.foldl (mapColumnStep asms) m) asm =
        Option.elim ((cols.reverse).find? fun col => matchesCol asm col) (m asm) some := by
  induction cols with
  | nil => intro m; simp
  | cons c rest ih =>
    intro m
    rw [List.foldl_cons, ih (mapColumnStep asms m c)]
    rw [List.reverse_cons, List.find?_append]
    cases hfind : (rest.reverse).find? fun col => matchesCol asm col with
    | some x => simp [Option.or]
    | none =>
      rw [mapColumnStep_apply]
      by_cases hm : matchesCol asm c
      · simp [Option.or, hm, hmem]
      · simp [Option.or, hm, hmem]

/-- C4 (amended): for a configured assessment name, the resolved column is the
last label in scan order satisfying `matchesCol` (exact case-insensitive
equality, or case-insensitive substring with `"total"`-labels excluded), with
no resolution when no label matches; names outside the configuration are never
mapped.  The priority the claim ascribes to exact matches does not exist: a
later substring match overwrites an earlier exact match. -/
theorem colmap_last_match (cols asms : List String) (asm : String) :
    (asm ∈ asms →
      buildColMap cols asms asm =
        Option.elim ((cols.reverse).find? fun col => matchesCol asm col) none some) ∧
    (asm ∉ asms → buildColMap cols asms asm = none) := by
  constructor
  · intro hmem
    exact buildColMap_foldl asms asm hmem cols fun _ => none
  · intro hmem
    have haux : ∀ (cs : List String) (m : String → Option String),
        (cs.foldl (mapColumnStep asms) m) asm = m asm := by
      intro cs
      induction cs with
      | nil => intro m; rfl
      | cons c rest ih =>
        intro m
        rw [List.foldl_cons, ih, mapColumnStep_apply]
        simp [hmem]
    exact haux cols fun _ => none

/-- Counterexample to C4 as stated: with actual labels
`["Quiz", "My Quiz 2"]` and configured name `"Quiz"`, the first label is an
exact case-insensitive match, yet the later substring-only label displaces it:
the map resolves `"Quiz"` to `"My Quiz 2"`, so an exact match is not final. -/
theorem colmap_exact_not_final :
    buildColMap ["Quiz", "My Quiz 2"] ["Quiz"] "Quiz" = some "My Quiz 2" ∧
    (pyLower "Quiz" == pyLower "Quiz") = true ∧ "My Quiz 2" ≠ "Quiz" := by
  refine ⟨by decide, by decide, by decide⟩

/-- Witness for C4: instantiating the amended theorem on the counterexample
labels shows the last matching label win concretely. -/
theorem colmap_last_match_witness :
    ("Quiz" ∈ ["Quiz"] ∧
      buildColMap ["Quiz", "My Quiz 2"] ["Quiz"] "Quiz" =
        Option.elim ((["Quiz", "My Quiz 2"].reverse).find?
          fun col => matchesCol "Quiz" col) none some) ∧
    (["Quiz", "My Quiz 2"].reverse).find? (fun col => matchesCol "Quiz" col) =
      some "My Quiz 2" :=
  ⟨⟨by decide, (colmap_last_match ["Quiz", "My Quiz 2"] ["Quiz"] "Quiz").1 (by decide)⟩,
    by decide⟩

/-- One parsed assessment configuration (source lines 96-100): weight in
percent, full marks, and the CLO tag it contributes to. -/
structure AsmConfig where
  weight : ℚ
  full : ℚ
  clo : String
deriving DecidableEq

/-- The dict-accumulator update of source lines 153-155: find the CLO's
`{earned, weight}` entry (inserting a fresh one at the end when absent, as a
Python dict does) and add the contribution to it. -/
def addToBucket : List (String × ℚ × ℚ) → String → ℚ → ℚ → List (String × ℚ × ℚ)
  | [], clo, e, w => [(clo, e, w)]
  | b :: rest, clo, e, w =>
    if b.1 = clo then (b.1, b.2.1 + e, b.2.2 + w) :: rest
    else b :: addToBucket rest clo e w

/-- One `addToBucket` step driven by a contribution triple (CLO tag, earned,
weight). -/
def bucketStep (bs : List (String × ℚ × ℚ)) (c : String × ℚ × ℚ) :
    List (String × ℚ × ℚ) :=
  addToBucket bs c.1 c.2.1 c.2.2

/-- The body of the assessment loop of source lines 141-157, for one
configured assessment: when its name resolved to a column, compute
`(raw / full) * weight` from the coerced mark and accumulate it into the CLO
bucket.  A zero `full` makes the division raise `ZeroDivisionError`, which the
bare `except: pass` turns into skipping the assessment entirely, so the model
skips it before touching any bucket. -/
def rowStep (colMap : String → Option String) (marks : String → Cell)
    (bs : List (String × ℚ × ℚ)) (p : String × AsmConfig) :
    List (String × ℚ × ℚ) :=
  match colMap p.1 with
  | none => bs
  | some col =>
    if p.2.full = 0 then bs
    else addToBucket bs p.2.clo (coerceMark (marks col) / p.2.full * p.2.weight)
      p.2.weight

/-- The assessment loop of source lines 141-157 for one student row: fold
`rowStep` over the configured assessments, starting from the empty
`student_clos` dict. -/
def accumulateRow (assessments : List (String × AsmConfig))
    (colMap : String → Option String) (marks : String → Cell) :
    List (String × ℚ × ℚ) :=
  assessments.foldl (rowStep colMap marks) []

/-- The contribution triple (CLO tag, earned, weight) one configured assessment
feeds into the accumulator, when it has a resolved column and non-zero full
marks; `none` when the assessment is skipped. -/
def contribOf (colMap : String → Option String) (marks : String → Cell)
    (p : String × AsmConfig) : Option (String × ℚ × ℚ) :=
  match colMap p.1 with
  | none => none
  | some col =>
    if p.2.full = 0 then none
    else some (p.2.clo, coerceMark (marks col) / p.2.full * p.2.weight, p.2.weight)

/-- The flat list of contributions the loop of `accumulateRow` actually
accumulates, in configuration order. -/
def contribs (assessments : List (String × AsmConfig))
    (colMap : String → Option String) (marks : String → Cell) :
    List (String × ℚ × ℚ) :=
  assessments.filterMap (contribOf colMap marks)

/-- One emitted student record (the `res` dict of source lines 160-170): id,
the raw name cell, the CLO percentage entries in insertion order, and the
`Total` field. -/
structure StudentRecord where
  id : String
  name : Cell
  cloScores : List (String × ℚ)
  total : ℚ
deriving DecidableEq

/-- The finalisation loop of source lines 160-170: every CLO bucket with
positive accumulated weight emits `earned / weight * 100`, and `Total` is the
sum of `earned` over exactly those buckets. -/
def finalizeStudent (sid : String) (sname : Cell)
    (buckets : List (String × ℚ × ℚ)) : StudentRecord :=
  { id := sid, name := sname,
    cloScores := (buckets.filter fun b => decide (0 < b.2.2)).map
      fun b => (b.1, b.2.1 / b.2.2 * 100),
    total := ((buckets.filter fun b => decide (0 < b.2.2)).map fun b => b.2.1).sum }

/-- Processing of one student row (source lines 139-171), given the assessment
configuration, the resolved column map, the extracted id and name, and the
row's cells addressed by column label. -/
def processStudent (assessments : List (String × AsmConfig))
    (colMap : String → Option String) (sid : String) (sname : Cell)
    (marks : String → Cell) : StudentRecord :=
  finalizeStudent sid sname (accumulateRow assessments colMap marks)

/-- Lookup of one CLO's percentage in an emitted record. -/
def lookupScore (rec : StudentRecord) (clo : String) : Option ℚ :=
  (rec.cloScores.find? fun p => p.1 == clo).map (·.2)

/-- Sum of the `earned` components of a list of contribution triples. -/
def earnedSum (l : List (String × ℚ × ℚ)) : ℚ :=
  (l.map fun b => b.2.1).sum

/-- Sum of the `weight` components of a list of contribution triples. -/
def weightSum (l : List (String × ℚ × ℚ)) : ℚ :=
  (l.map fun b => b.2.2).sum

/-- The contributions feeding one CLO tag. -/
def forCLO (l : List (String × ℚ × ℚ)) (c : String) : List (String × ℚ × ℚ) :=
  l.filter fun b => b.1 == c

/-- First bucket carrying a given CLO tag. -/
def findBucket (bs : List (String × ℚ × ℚ)) (c : String) :
    Option (String × ℚ × ℚ) :=
  bs.find? fun b => b.1 == c

lemma earnedSum_nil : earnedSum [] = 0 := rfl

lemma earnedSum_cons (x : String × ℚ × ℚ) (l : List (String × ℚ × ℚ)) :
    earnedSum (x :: l) = x.2.1 + earnedSum l := by
  simp [earnedSum]

lemma weightSum_nil : weightSum [] = 0 := rfl

lemma weightSum_cons (x : String × ℚ × ℚ) (l : List (String × ℚ × ℚ)) :
    weightSum (x :: l) = x.2.2 + weightSum l := by
  simp [weightSum]

lemma forCLO_cons (x : String × ℚ × ℚ) (l : List (String × ℚ × ℚ)) (c : String) :
    forCLO (x :: l) c = if x.1 = c then x :: forCLO l c else forCLO l c := by
  by_cases h : x.1 = c <;> simp [forCLO, List.filter_cons, h]

lemma findBucket_cons_of_eq (b : String × ℚ × ℚ) (c : String)
    (rest : List (String × ℚ × ℚ)) (h : b.1 = c) :
    findBucket (b :: rest) c = some b := by
  simp only [findBucket]
  rw [List.find?_cons_of_pos _ (by simp [h])]

lemma findBucket_cons_of_ne (b : String × ℚ × ℚ) (c : String)
    (rest : List (String × ℚ × ℚ)) (h : b.1 ≠ c) :
    findBucket (b :: rest) c = findBucket rest c := by
  simp only [findBucket]
  rw [List.find?_cons_of_neg _ (by simp [h])]

lemma findBucket_addToBucket_same (bs : List (String × ℚ × ℚ)) (clo : String)
    (e w : ℚ) :
    findBucket (addToBucket bs clo e w) clo =
      some (Option.elim (findBucket bs clo) (clo, e, w)
        fun b => (b.1, b.2.1 + e, b.2.2 + w)) := by
  induction bs with
  | nil => simp [addToBucket, findBucket]
  | cons b rest ih =>
    by_cases h : b.1 = clo
    · have h1 : addToBucket (b :: rest) clo e w = (b.1, b.2.1 + e, b.2.2 + w) :: rest := by
        simp [addToBucket, h]
      rw [h1, findBucket_cons_of_eq (b.1, b.2.1 + e, b.2.2 + w) clo rest h,
        findBucket_cons_of_eq b clo rest h]
      simp
    · have h1 : addToBucket (b :: rest) clo e w = b :: addToBucket rest clo e w := by
        simp [addToBucket, h]
      rw [h1, findBucket_cons_of_ne b clo (addToBucket rest clo e w) h,
        findBucket_cons_of_ne b clo rest h]
      exact ih

lemma findBucket_addToBucket_other (bs : List (String × ℚ × ℚ)) (clo : String)
    (e w : ℚ) (c : String) (hc : c ≠ clo) :
    findBucket (addToBucket bs clo e w) c = findBucket bs c := by
  induction bs with
  | nil =>
    simp only [addToBucket]
    rw [findBucket_cons_of_ne (clo, e, w) c [] (Ne.symm hc)]
  | cons b rest ih =>
    by_cases h : b.1 = clo
    · have hbc : b.1 ≠ c := fun hb => hc (by rw [← hb, h])
      have h1 : addToBucket (b :: rest) clo e w = (b.1, b.2.1 + e, b.2.2 + w) :: rest := by
        simp [addToBucket, h]
      rw [h1, findBucket_cons_of_ne (b.1, b.2.1 + e, b.2.2 + w) c rest hbc,
        findBucket_cons_of_ne b c rest hbc]
    · have h1 : addToBucket (b :: rest) clo e w = b :: addToBucket rest clo e w := by
        simp [addToBucket, h]
      by_cases hbc : b.1 = c
      · rw [h1, findBucket_cons_of_eq b c (addToBucket rest clo e w) hbc,
          findBucket_cons_of_eq b c rest hbc]
      · rw [h1, findBucket_cons_of_ne b c (addToBucket rest clo e w) hbc,
          findBucket_cons_of_ne b c rest hbc]
        exact ih

lemma findBucket_foldl (l : List (String × ℚ × ℚ)) :
    ∀ (bs : List (String × ℚ × ℚ)) (c : String),
      findBucket (l.foldl bucketStep bs) c =
        match findBucket bs c with
        | some b => some (b.1, b.2.1 + earnedSum (forCLO l c), b.2.2 + weightSum (forCLO l c))
        | none =>
          if (forCLO l c).isEmpty then none
          else some (c, earnedSum (forCLO l c), weightSum (forCLO l c)) := by
  induction l with
  | nil =>
    intro bs c
    cases h : findBucket bs c with
    | some b => simp [h, forCLO, earnedSum_nil, weightSum_nil]
    | none => simp [h, forCLO]
  | cons x t ih =>
    intro bs c
    rw [List.foldl_cons, ih (bucketStep bs x) c]
    by_cases hx : x.1 = c
    · subst hx
      rw [show bucketStep bs x = addToBucket bs x.1 x.2.1 x.2.2 from rfl]
      rw [findBucket_addToBucket_same]
      cases h : findBucket bs x.1 with
      | some b =>
        simp [h, forCLO_cons, earnedSum_cons, weightSum_cons]
        constructor <;> ring
      | none =>
        simp [h, forCLO_cons, earnedSum_cons, weightSum_cons]
    · rw [show bucketStep bs x = addToBucket bs x.1 x.2.1 x.2.2 from rfl]
      rw [findBucket_addToBucket_other bs x.1 x.2.1 x.2.2 c (fun h => hx h.symm)]
      rw [forCLO_cons]
      simp [hx]

lemma rowStep_eq_contribOf (colMap : String → Option String) (marks : String → Cell)
    (bs : List (String × ℚ × ℚ)) (p : String × AsmConfig) :
    rowStep colMap marks bs p =
      Option.elim (contribOf colMap marks p) bs (bucketStep bs) := by
  cases hcol : colMap p.1 with
  | none => simp [rowStep, contribOf, hcol]
  | some col =>
    by_cases hf : p.2.full = 0 <;> simp [rowStep, contribOf, hcol, hf, bucketStep]

lemma accumulateRow_eq_foldl (assessments : List (String × AsmConfig))
    (colMap : String → Option String) (marks : String → Cell) :
    accumulateRow assessments colMap marks =
      (contribs assessments colMap marks).foldl bucketStep [] := by
  suffices h : ∀ (asms : List (String × AsmConfig)) (bs : List (String × ℚ × ℚ)),
      asms.foldl (rowStep colMap marks) bs =
        (asms.filterMap (contribOf colMap marks)).foldl bucketStep bs by
    exact h assessments []
  intro asms
  induction asms with
  | nil => intro bs; rfl
  | cons p t ih =>
    intro bs
    rw [List.foldl_cons, List.filterMap_cons]
    cases hc : contribOf colMap marks p with
    | none => rw [ih, rowStep_eq_contribOf, hc]; rfl
    | some x => rw [List.foldl_cons, ih, rowStep_eq_contribOf, hc]; rfl

lemma addToBucket_keys (bs : List (String × ℚ × ℚ)) (clo : String) (e w : ℚ) :
    (addToBucket bs clo e w).map (·.1) =
      if clo ∈ bs.map (·.1) then bs.map (·.1) else bs.map (·.1) ++ [clo] := by
  induction bs with
  | nil => simp [addToBucket]
  | cons b rest ih =>
    by_cases h : b.1 = clo
    · simp [addToBucket, h]
    · have h1 : addToBucket (b :: rest) clo e w = b :: addToBucket rest clo e w := by
        simp [addToBucket, h]
      rw [h1]
      by_cases hm : clo ∈ rest.map (·.1)
      · simp [ih, hm, h, Ne.symm h]
      · simp [ih, hm, h, Ne.symm h]

lemma foldl_bucketStep_keys_nodup (l : List (String × ℚ × ℚ)) :
    ∀ bs : List (String × ℚ × ℚ), ((bs.map (·.1)).Nodup) →
      (((l.foldl bucketStep bs)).map (·.1)).Nodup := by
  induction l with
  | nil => intro bs h; exact h
  | cons x t ih =>
    intro bs h
    rw [List.foldl_cons]
    apply ih
    rw [show bucketStep bs x = addToBucket bs x.1 x.2.1 x.2.2 from rfl]
    rw [addToBucket_keys]
    by_cases hm : x.1 ∈ bs.map (·.1)
    · simpa [hm] using h
    · simp [hm, h, List.Nodup.append, List.nodup_append]

lemma findBucket_of_mem (bs : List (String × ℚ × ℚ))
    (hnd : (bs.map (·.1)).Nodup) {b : String × ℚ × ℚ} (hb : b ∈ bs) :
    findBucket bs b.1 = some b := by
  induction bs with
  | nil => cases hb
  | cons x rest ih =>
    rcases List.mem_cons.1 hb with rfl | hb
    · exact findBucket_cons_of_eq b b.1 rest rfl
    · have hx : x.1 ≠ b.1 := by
        have h1 : b.1 ∈ rest.map (·.1) := List.mem_map_of_mem _ hb
        have h2 : x.1 ∉ rest.map (·.1) := (List.nodup_cons.1 (by simpa using hnd)).1
        exact fun he => h2 (he ▸ h1)
      rw [findBucket_cons_of_ne x b.1 rest hx]
      exact ih (List.nodup_cons.1 (by simpa using hnd)).2 hb

lemma find?_filter_nodup (bs : List (String × ℚ × ℚ))
    (hnd : (bs.map (·.1)).Nodup) (q : (String × ℚ × ℚ) → Bool) (c : String) :
    ((bs.filter q).find? fun b => b.1 == c) =
      match findBucket bs c with
      | some b => if q b then some b else none
      | none => none := by
  induction bs with
  | nil => rfl
  | cons b rest ih =>
    have hnd2 : (rest.map (·.1)).Nodup := (List.nodup_cons.1 (by simpa using hnd)).2
    have hnotin : b.1 ∉ rest.map (·.1) := (List.nodup_cons.1 (by simpa using hnd)).1
    by_cases hb : b.1 = c
    · rw [findBucket_cons_of_eq b c rest hb]
      by_cases hq : q b
      · rw [List.filter_cons_of_pos hq]
        rw [List.find?_cons_of_pos _ (by simp [hb])]
        simp [hq]
      · rw [List.filter_cons_of_neg (by simpa using hq)]
        have hnone : ((rest.filter q).find? fun x => x.1 == c) = none := by
          rw [List.find?_eq_none]
          intro x hx
          have hx1 : x ∈ rest := List.mem_of_mem_filter hx
          have : x.1 ∈ rest.map (·.1) := List.mem_map_of_mem _ hx1
          have hne : x.1 ≠ c := fun he => hnotin (by rw [hb]; exact he ▸ this)
          simp [hne]
        rw [hnone]
        simp [hq]
    · rw [findBucket_cons_of_ne b c rest hb]
      by_cases hq : q b
      · rw [List.filter_cons_of_pos hq]
        rw [List.find?_cons_of_neg _ (by simp [hb])]
        exact ih hnd2
      · rw [List.filter_cons_of_neg (by simpa using hq)]
        exact ih hnd2

lemma accumulateRow_keys_nodup (assessments : List (String × AsmConfig))
    (colMap : String → Option String) (marks : String → Cell) :
    ((accumulateRow assessments colMap marks).map (·.1)).Nodup := by
  rw [accumulateRow_eq_foldl]
  exact foldl_bucketStep_keys_nodup _ [] (by simp)

lemma lookupScore_char (assessments : List (String × AsmConfig))
    (colMap : String → Option String) (sid : String) (sname : Cell)
    (marks : String → Cell) (c : String) :
    lookupScore (processStudent assessments colMap sid sname marks) c =
      match findBucket (accumulateRow assessments colMap marks) c with
      | some b => if decide (0 < b.2.2) then some (b.2.1 / b.2.2 * 100) else none
      | none => none := by
  rw [lookupScore, processStudent, finalizeStudent]
  simp only
  rw [List.find?_map]
  rw [show ((fun p => p.1 == c) ∘ fun b : String × ℚ × ℚ => (b.1, b.2.1 / b.2.2 * 100)) =
      (fun b : String × ℚ × ℚ => b.1 == c) from rfl]
  rw [find?_filter_nodup _ (accumulateRow_keys_nodup assessments colMap marks)]
  cases h : findBucket (accumulateRow assessments colMap marks) c with
  | none => rfl
  | some b => by_cases hq : decide (0 < b.2.2) <;> simp [hq]

lemma findBucket_accumulateRow (assessments : List (String × AsmConfig))
    (colMap : String → Option String) (marks : String → Cell) (c : String) :
    findBucket (accumulateRow assessments colMap marks) c =
      if (forCLO (contribs assessments colMap marks) c).isEmpty then none
      else some (c, earnedSum (forCLO (contribs assessments colMap marks) c),
        weightSum (forCLO (contribs assessments colMap marks) c)) := by
  rw [accumulateRow_eq_foldl]
  rw [findBucket_foldl (contribs assessments colMap marks) [] c]
  rfl

/-- C1: for every processed student row and every CLO whose contributing
assessments (those with a resolved column and non-zero full marks) have
weights summing to `W > 0`, the emitted CLO percentage equals
`100 * Σ((raw_mark / full_marks) * weight_pct) / W` over those assessments;
and for every CLO whose contributing weight sum is `0`, no key for that CLO
appears in the record. -/
theorem clo_percentage_spec (assessments : List (String × AsmConfig))
    (colMap : String → Option String) (sid : String) (sname : Cell)
    (marks : String → Cell) (clo : String) :
    (0 < weightSum (forCLO (contribs assessments colMap marks) clo) →
      lookupScore (processStudent assessments colMap sid sname marks) clo =
        some (100 * earnedSum (forCLO (contribs assessments colMap marks) clo) /
          weightSum (forCLO (contribs assessments colMap marks) clo))) ∧
    (weightSum (forCLO (contribs assessments colMap marks) clo) = 0 →
      ∀ p ∈ (processStudent assessments colMap sid sname marks).cloScores,
        p.1 ≠ clo) := by
  have hkey := findBucket_accumulateRow assessments colMap marks clo
  constructor
  · intro hW
    have hne : (forCLO (contribs assessments colMap marks) clo).isEmpty = false := by
      cases hemp : forCLO (contribs assessments colMap marks) clo with
      | nil =>
        exfalso
        rw [hemp] at hW
        simp [weightSum] at hW
      | cons a l => rfl
    rw [lookupScore_char, hkey, if_neg (by simp [hne])]
    show (if decide (0 < weightSum (forCLO (contribs assessments colMap marks) clo)) = true
        then some (earnedSum (forCLO (contribs assessments colMap marks) clo) /
          weightSum (forCLO (contribs assessments colMap marks) clo) * 100)
        else none) = _
    rw [if_pos (by simpa using hW)]
    rw [div_mul_eq_mul_div, mul_comm]
  · intro hW p hp
    intro hcontra
    rw [processStudent, finalizeStudent] at hp
    simp only [List.mem_map] at hp
    obtain ⟨b, hbf, hpb⟩ := hp
    have hbmem : b ∈ accumulateRow assessments colMap marks := (List.mem_filter.1 hbf).1
    have hbq : decide (0 < b.2.2) = true := (List.mem_filter.1 hbf).2
    have hbpos : 0 < b.2.2 := of_decide_eq_true hbq
    have hb1 : b.1 = clo := by
      rw [← hpb] at hcontra
      exact hcontra
    have hfind := findBucket_of_mem _ (accumulateRow_keys_nodup assessments colMap marks) hbmem
    rw [hb1, findBucket_accumulateRow] at hfind
    by_cases hemp : (forCLO (contribs assessments colMap marks) clo).isEmpty
    · rw [if_pos hemp] at hfind
      exact Option.noConfusion hfind
    · rw [if_neg hemp] at hfind
      have hbeq := Option.some.inj hfind
      have hbw : b.2.2 = weightSum (forCLO (contribs assessments colMap marks) clo) := by
        rw [← hbeq]
      rw [hbw, hW] at hbpos
      exact lt_irrefl 0 hbpos

/-- The two-assessment configuration of the spec scenario: `A1` worth 40% of
the course, full marks 50; `A2` worth 60%, full marks 100; both tagged CLO1. -/
def demoAssessments : List (String × AsmConfig) :=
  [("A1", ⟨40, 50, "CLO1"⟩), ("A2", ⟨60, 100, "CLO1"⟩)]

/-- Column map resolving each demo assessment to its own column. -/
def demoColMap : String → Option String :=
  fun n => if n = "A1" then some "A1" else if n = "A2" then some "A2" else none

/-- Demo marks row: `A1 = 25` (of 50), `A2 = 90` (of 100). -/
def demoMarks : String → Cell :=
  fun c => if c = "A1" then Cell.num 25 else if c = "A2" then Cell.num 90 else Cell.blank

/-- Demo marks row in which the `A1` cell holds the text `"absent"`. -/
def demoMarksAbsent : String → Cell :=
  fun c => if c = "A1" then Cell.text "absent" else if c = "A2" then Cell.num 90
    else Cell.blank

/-- Witness for C1: on the demo scenario the CLO1 weight sum is `100 > 0` and
the emitted percentage matches the normalisation formula. -/
theorem clo_percentage_spec_witness :
    0 < weightSum (forCLO (contribs demoAssessments demoColMap demoMarks) "CLO1") ∧
    lookupScore (processStudent demoAssessments demoColMap "S1" (Cell.text "Demo")
        demoMarks) "CLO1" =
      some (100 * earnedSum (forCLO (contribs demoAssessments demoColMap demoMarks) "CLO1") /
        weightSum (forCLO (contribs demoAssessments demoColMap demoMarks) "CLO1")) := by
  have hW : 0 < weightSum (forCLO (contribs demoAssessments demoColMap demoMarks) "CLO1") := by
    norm_num +decide [demoAssessments, demoColMap, demoMarks, contribs, contribOf, forCLO,
      weightSum, coerceMark, List.filterMap_cons, List.filter_cons]
  exact ⟨hW, (clo_percentage_spec demoAssessments demoColMap "S1" (Cell.text "Demo")
    demoMarks "CLO1").1 hW⟩

lemma earnedSum_addToBucket (bs : List (String × ℚ × ℚ)) (clo : String) (e w : ℚ) :
    earnedSum (addToBucket bs clo e w) = earnedSum bs + e := by
  induction bs with
  | nil => simp [addToBucket, earnedSum]
  | cons b rest ih =>
    by_cases h : b.1 = clo
    · have h1 : addToBucket (b :: rest) clo e w = (b.1, b.2.1 + e, b.2.2 + w) :: rest := by
        simp [addToBucket, h]
      rw [h1, earnedSum_cons, earnedSum_cons]
      ring
    · have h1 : addToBucket (b :: rest) clo e w = b :: addToBucket rest clo e w := by
        simp [addToBucket, h]
      rw [h1, earnedSum_cons, earnedSum_cons, ih]
      ring

lemma earnedSum_foldl (l : List (String × ℚ × ℚ)) :
    ∀ bs : List (String × ℚ × ℚ),
      earnedSum (l.foldl bucketStep bs) = earnedSum bs + earnedSum l := by
  induction l with
  | nil => intro bs; simp [earnedSum_nil]
  | cons x t ih =>
    intro bs
    rw [List.foldl_cons, ih, earnedSum_cons,
      show bucketStep bs x = addToBucket bs x.1 x.2.1 x.2.2 from rfl,
      earnedSum_addToBucket]
    ring

lemma weightSum_nonneg (l : List (String × ℚ × ℚ)) (h : ∀ x ∈ l, 0 ≤ x.2.2) :
    0 ≤ weightSum l := by
  induction l with
  | nil => simp [weightSum_nil]
  | cons x t ih =>
    rw [weightSum_cons]
    have hx := h x (List.mem_cons_self x t)
    have ht := ih fun y hy => h y (List.mem_cons_of_mem x hy)
    linarith

lemma weightSum_zero_all_zero (l : List (String × ℚ × ℚ))
    (h : ∀ x ∈ l, 0 ≤ x.2.2) (hz : weightSum l = 0) : ∀ x ∈ l, x.2.2 = 0 := by
  induction l with
  | nil => intro x hx; cases hx
  | cons y t ih =>
    intro x hx
    rw [weightSum_cons] at hz
    have hy := h y (List.mem_cons_self y t)
    have ht : ∀ z ∈ t, 0 ≤ z.2.2 := fun z hz2 => h z (List.mem_cons_of_mem y hz2)
    have htn := weightSum_nonneg t ht
    rcases List.mem_cons.1 hx with rfl | hx
    · linarith
    · exact ih ht (by linarith) x hx

lemma earnedSum_eq_zero (l : List (String × ℚ × ℚ)) (h : ∀ x ∈ l, x.2.1 = 0) :
    earnedSum l = 0 := by
  induction l with
  | nil => rfl
  | cons x t ih =>
    rw [earnedSum_cons, h x (List.mem_cons_self x t),
      ih fun y hy => h y (List.mem_cons_of_mem x hy)]
    ring

lemma earnedSum_filter_eq (bs : List (String × ℚ × ℚ))
    (q : (String × ℚ × ℚ) → Bool) (h : ∀ b ∈ bs, q b = false → b.2.1 = 0) :
    earnedSum (bs.filter q) = earnedSum bs := by
  induction bs with
  | nil => rfl
  | cons b rest ih =>
    have hrest := ih fun x hx => h x (List.mem_cons_of_mem b hx)
    by_cases hq : q b
    · rw [List.filter_cons_of_pos hq, earnedSum_cons, earnedSum_cons, hrest]
    · rw [List.filter_cons_of_neg (by simpa using hq), earnedSum_cons, hrest,
        h b (List.mem_cons_self b rest) (by simpa using hq)]
      ring

lemma contribOf_eq_some {colMap : String → Option String} {marks : String → Cell}
    {p : String × AsmConfig} {x : String × ℚ × ℚ}
    (hpx : contribOf colMap marks p = some x) :
    ∃ col, colMap p.1 = some col ∧ p.2.full ≠ 0 ∧
      x = (p.2.clo, coerceMark (marks col) / p.2.full * p.2.weight, p.2.weight) := by
  cases hcol : colMap p.1 with
  | none => simp [contribOf, hcol] at hpx
  | some col =>
    by_cases hf : p.2.full = 0
    · simp [contribOf, hcol, hf] at hpx
    · refine ⟨col, rfl, hf, ?_⟩
      simp [contribOf, hcol, hf] at hpx
      exact hpx.symm

lemma contribs_mem {assessments : List (String × AsmConfig)}
    {colMap : String → Option String} {marks : String → Cell}
    {x : String × ℚ × ℚ} (hx : x ∈ contribs assessments colMap marks) :
    ∃ p ∈ assessments, ∃ col, colMap p.1 = some col ∧ p.2.full ≠ 0 ∧
      x = (p.2.clo, coerceMark (marks col) / p.2.full * p.2.weight, p.2.weight) := by
  obtain ⟨p, hp, hpx⟩ := List.mem_filterMap.1 hx
  exact ⟨p, hp, contribOf_eq_some hpx⟩

lemma bucket_components (assessments : List (String × AsmConfig))
    (colMap : String → Option String) (marks : String → Cell)
    {b : String × ℚ × ℚ} (hb : b ∈ accumulateRow assessments colMap marks) :
    b.2.1 = earnedSum (forCLO (contribs assessments colMap marks) b.1) ∧
    b.2.2 = weightSum (forCLO (contribs assessments colMap marks) b.1) := by
  have hf := findBucket_of_mem _ (accumulateRow_keys_nodup assessments colMap marks) hb
  rw [findBucket_accumulateRow] at hf
  by_cases hemp : (forCLO (contribs assessments colMap marks) b.1).isEmpty
  · rw [if_pos hemp] at hf
    exact Option.noConfusion hf
  · rw [if_neg hemp] at hf
    have heq := Option.some.inj hf
    exact ⟨by rw [← heq], by rw [← heq]⟩

lemma earnedSum_contribs (assessments : List (String × AsmConfig))
    (colMap : String → Option String) (marks : String → Cell)
    (hf : ∀ p ∈ assessments, p.2.full ≠ 0) :
    earnedSum (contribs assessments colMap marks) =
      (assessments.filterMap fun (p : String × AsmConfig) =>
        (colMap p.1).map fun col => coerceMark (marks col) / p.2.full * p.2.weight).sum := by
  induction assessments with
  | nil => rfl
  | cons p t ih =>
    have hpf := hf p (List.mem_cons_self p t)
    have ht := ih fun x hx => hf x (List.mem_cons_of_mem p hx)
    rw [contribs, List.filterMap_cons, List.filterMap_cons]
    cases hcol : colMap p.1 with
    | none =>
      rw [show contribOf colMap marks p = none by simp [contribOf, hcol]]
      simpa [contribs] using ht
    | some col =>
      have h1 : contribOf colMap marks p =
          some (p.2.clo, coerceMark (marks col) / p.2.full * p.2.weight, p.2.weight) := by
        simp [contribOf, hcol, hpf]
      simp only [h1, hcol, Option.map_some', earnedSum_cons, List.sum_cons]
      rw [show earnedSum (List.filterMap (contribOf colMap marks) t) =
        (t.filterMap fun (p : String × AsmConfig) =>
          (colMap p.1).map fun col => coerceMark (marks col) / p.2.full * p.2.weight).sum
        from ht]

/-- C2: the `Total` field of every emitted record equals the sum, over all
configured assessments with a resolved column, of
`(raw_mark / full_marks) * weight_pct`, independent of how assessments are
grouped into CLOs, for every configuration respecting the data model (weights
nonnegative, full marks positive); and on the two-assessment CLO1 scenario
(A1: weight 40, full 50, mark 25; A2: weight 60, full 100, mark 90) the record
carries CLO1 = 74 and Total = 74. -/
theorem total_sum_spec :
    (∀ (assessments : List (String × AsmConfig)) (colMap : String → Option String)
        (sid : String) (sname : Cell) (marks : String → Cell),
      (∀ p ∈ assessments, 0 ≤ p.2.weight) →
      (∀ p ∈ assessments, 0 < p.2.full) →
      (processStudent assessments colMap sid sname marks).total =
        (assessments.filterMap fun (p : String × AsmConfig) =>
          (colMap p.1).map fun col => coerceMark (marks col) / p.2.full * p.2.weight).sum) ∧
    lookupScore (processStudent demoAssessments demoColMap "S1" (Cell.text "Demo")
        demoMarks) "CLO1" = some 74 ∧
    (processStudent demoAssessments demoColMap "S1" (Cell.text "Demo") demoMarks).total
      = 74 := by
  have hacc : accumulateRow demoAssessments demoColMap demoMarks = [("CLO1", 74, 100)] := by
    norm_num +decide [accumulateRow, rowStep, addToBucket, demoAssessments, demoColMap,
      demoMarks, coerceMark, List.foldl_cons]
  refine ⟨?_, ?_, ?_⟩
  · intro assessments colMap sid sname marks hw hfull
    have hcw : ∀ x ∈ contribs assessments colMap marks, 0 ≤ x.2.2 := by
      intro x hx
      obtain ⟨p, hp, col, hcol, hfz, rfl⟩ := contribs_mem hx
      exact hw p hp
    have hzero : ∀ b ∈ accumulateRow assessments colMap marks,
        (decide (0 < b.2.2)) = false → b.2.1 = 0 := by
      intro b hb hq
      have hnq : ¬ 0 < b.2.2 := of_decide_eq_false hq
      obtain ⟨he, hwt⟩ := bucket_components assessments colMap marks hb
      have hsub : ∀ x ∈ forCLO (contribs assessments colMap marks) b.1,
          x ∈ contribs assessments colMap marks :=
        fun x hx => List.mem_of_mem_filter hx
      have hw2 : ∀ x ∈ forCLO (contribs assessments colMap marks) b.1, 0 ≤ x.2.2 :=
        fun x hx => hcw x (hsub x hx)
      have hwz : weightSum (forCLO (contribs assessments colMap marks) b.1) = 0 := by
        have := weightSum_nonneg _ hw2
        rw [← hwt] at this ⊢
        linarith
      have hallz := weightSum_zero_all_zero _ hw2 hwz
      rw [he]
      apply earnedSum_eq_zero
      intro x hx
      obtain ⟨p, hp, col, hcol, hfz, hxe⟩ := contribs_mem (hsub x hx)
      have hx2 : x.2.2 = p.2.weight := by rw [hxe]
      have hx1 : x.2.1 = coerceMark (marks col) / p.2.full * p.2.weight := by rw [hxe]
      rw [hx1, ← hx2, hallz x hx]
      ring
    have h1 : (processStudent assessments colMap sid sname marks).total =
        earnedSum ((accumulateRow assessments colMap marks).filter
          fun b => decide (0 < b.2.2)) := rfl
    rw [h1, earnedSum_filter_eq _ _ hzero, accumulateRow_eq_foldl]
    rw [show earnedSum ((contribs assessments colMap marks).foldl bucketStep []) =
        earnedSum (contribs assessments colMap marks) by
      rw [earnedSum_foldl]
      simp [earnedSum_nil]]
    exact earnedSum_contribs assessments colMap marks
      fun p hp => ne_of_gt (hfull p hp)
  · norm_num +decide [processStudent, finalizeStudent, hacc, lookupScore,
      List.filter_cons, List.find?_cons]
  · norm_num +decide [processStudent, finalizeStudent, hacc, List.filter_cons]

/-- Witness for C2: the data-model hypotheses hold on the demo configuration
and the instantiated theorem computes its `Total`. -/
theorem total_sum_spec_witness :
    (∀ p ∈ demoAssessments, 0 ≤ p.2.weight) ∧ (∀ p ∈ demoAssessments, 0 < p.2.full) ∧
    (processStudent demoAssessments demoColMap "S1" (Cell.text "Demo") demoMarks).total =
      (demoAssessments.filterMap fun (p : String × AsmConfig) =>
        (demoColMap p.1).map fun col =>
          coerceMark (demoMarks col) / p.2.full * p.2.weight).sum := by
  have hw : ∀ p ∈ demoAssessments, 0 ≤ p.2.weight := by
    intro p hp
    fin_cases hp <;> norm_num [demoAssessments]
  have hfull : ∀ p ∈ demoAssessments, 0 < p.2.full := by
    intro p hp
    fin_cases hp <;> norm_num [demoAssessments]
  exact ⟨hw, hfull,
    total_sum_spec.1 demoAssessments demoColMap "S1" (Cell.text "Demo") demoMarks hw hfull⟩

/-- Demo marks row in which the `A1` mark is the number 0 (used to compare
against the `"absent"` row). -/
def demoMarksZero : String → Cell :=
  fun c => if c = "A1" then Cell.num 0 else if c = "A2" then Cell.num 90 else Cell.blank

/-- C3: a mark value that is missing or fails numeric coercion is treated as 0
for that one assessment and never aborts the student's row: `coerceMark` sends
every non-numeric and every blank cell to `0`; `processStudent` (a total
function) depends on the marks only through `coerceMark`, so such a row is
processed exactly like one carrying a numeric 0 — in particular the assessment
still adds its weight to the CLO bucket — and on the demo scenario with the
text `"absent"` in the A1 cell the record carries CLO1 = 54 and Total = 54. -/
theorem mark_coercion_spec :
    (∀ s, coerceMark (Cell.text s) = 0) ∧
    coerceMark Cell.blank = 0 ∧
    (∀ (assessments : List (String × AsmConfig)) (colMap : String → Option String)
        (sid : String) (sname : Cell) (m m2 : String → Cell),
      (∀ c, coerceMark (m c) = coerceMark (m2 c)) →
      processStudent assessments colMap sid sname m =
        processStudent assessments colMap sid sname m2) ∧
    lookupScore (processStudent demoAssessments demoColMap "S1" (Cell.text "Demo")
        demoMarksAbsent) "CLO1" = some 54 ∧
    (processStudent demoAssessments demoColMap "S1" (Cell.text "Demo")
        demoMarksAbsent).total = 54 := by
  have hacc : accumulateRow demoAssessments demoColMap demoMarksAbsent
      = [("CLO1", 54, 100)] := by
    norm_num +decide [accumulateRow, rowStep, addToBucket, demoAssessments, demoColMap,
      demoMarksAbsent, coerceMark, List.foldl_cons]
  refine ⟨fun s => rfl, rfl, ?_, ?_, ?_⟩
  · intro assessments colMap sid sname m m2 hme
    rw [processStudent, processStudent]
    congr 1
    rw [accumulateRow, accumulateRow]
    have haux : ∀ (asms : List (String × AsmConfig)) (bs : List (String × ℚ × ℚ)),
        asms.foldl (rowStep colMap m) bs = asms.foldl (rowStep colMap m2) bs := by
      intro asms
      induction asms with
      | nil => intro bs; rfl
      | cons p t ih =>
        intro bs
        rw [List.foldl_cons, List.foldl_cons]
        have hstep : rowStep colMap m bs p = rowStep colMap m2 bs p := by
          cases hcol : colMap p.1 with
          | none => simp only [rowStep, hcol]
          | some col =>
            simp only [rowStep, hcol]
            rw [hme col]
        rw [hstep]
        exact ih _
    exact haux assessments []
  · norm_num +decide [processStudent, finalizeStudent, hacc, lookupScore,
      List.filter_cons, List.find?_cons]
  · norm_num +decide [processStudent, finalizeStudent, hacc, List.filter_cons]

/-- Witness for C3: the `"absent"` marks row coerces pointwise like the
numeric-zero row, so the theorem makes the two processed records equal. -/
theorem mark_coercion_spec_witness :
    (∀ c, coerceMark (demoMarksAbsent c) = coerceMark (demoMarksZero c)) ∧
    processStudent demoAssessments demoColMap "S1" (Cell.text "Demo") demoMarksAbsent =
      processStudent demoAssessments demoColMap "S1" (Cell.text "Demo") demoMarksZero := by
  have hme : ∀ c, coerceMark (demoMarksAbsent c) = coerceMark (demoMarksZero c) := by
    intro c
    by_cases h1 : c = "A1" <;> by_cases h2 : c = "A2" <;>
      simp [demoMarksAbsent, demoMarksZero, h1, h2, coerceMark]
  exact ⟨hme, mark_coercion_spec.2.2.1 demoAssessments demoColMap "S1" (Cell.text "Demo")
    demoMarksAbsent demoMarksZero hme⟩

lemma earnedSum_bounds (l : List (String × ℚ × ℚ))
    (h : ∀ x ∈ l, 0 ≤ x.2.1 ∧ x.2.1 ≤ x.2.2) :
    0 ≤ earnedSum l ∧ earnedSum l ≤ weightSum l := by
  induction l with
  | nil => simp [earnedSum_nil, weightSum_nil]
  | cons x t ih =>
    obtain ⟨hx0, hx1⟩ := h x (List.mem_cons_self x t)
    obtain ⟨ht0, ht1⟩ := ih fun y hy => h y (List.mem_cons_of_mem x hy)
    rw [earnedSum_cons, weightSum_cons]
    constructor <;> linarith

/-- C9 (amended): every per-CLO score of an emitted record lies in `[0, 100]`
provided the configuration respects the data model (nonnegative weights) and
every coerced raw mark lies between `0` and the assessment's full marks.
Without the mark-range hypothesis the bound fails (see the counterexample with
a mark above full marks). -/
theorem clo_range_spec (assessments : List (String × AsmConfig))
    (colMap : String → Option String) (sid : String) (sname : Cell)
    (marks : String → Cell)
    (hw : ∀ p ∈ assessments, 0 ≤ p.2.weight)
    (hm : ∀ p ∈ assessments, ∀ col, colMap p.1 = some col →
      0 ≤ coerceMark (marks col) ∧ coerceMark (marks col) ≤ p.2.full) :
    ∀ q ∈ (processStudent assessments colMap sid sname marks).cloScores,
      0 ≤ q.2 ∧ q.2 ≤ 100 := by
  intro q hq
  rw [processStudent, finalizeStudent] at hq
  simp only [List.mem_map] at hq
  obtain ⟨b, hbf, hqb⟩ := hq
  have hbmem : b ∈ accumulateRow assessments colMap marks := (List.mem_filter.1 hbf).1
  have hbpos : 0 < b.2.2 := of_decide_eq_true ((List.mem_filter.1 hbf).2)
  obtain ⟨he, hwt⟩ := bucket_components assessments colMap marks hbmem
  have hbound : ∀ x ∈ forCLO (contribs assessments colMap marks) b.1,
      0 ≤ x.2.1 ∧ x.2.1 ≤ x.2.2 := by
    intro x hx
    obtain ⟨p, hp, col, hcol, hfz, hxe⟩ := contribs_mem (List.mem_of_mem_filter hx)
    obtain ⟨hr0, hrf⟩ := hm p hp col hcol
    have hfpos : 0 < p.2.full := lt_of_le_of_ne (le_trans hr0 hrf) (Ne.symm hfz)
    have hdiv0 : 0 ≤ coerceMark (marks col) / p.2.full := div_nonneg hr0 (le_of_lt hfpos)
    have hdiv1 : coerceMark (marks col) / p.2.full ≤ 1 := (div_le_one hfpos).2 hrf
    constructor
    · rw [hxe]
      exact mul_nonneg hdiv0 (hw p hp)
    · rw [hxe]
      exact mul_le_of_le_one_left (hw p hp) hdiv1
  obtain ⟨hE0, hEW⟩ := earnedSum_bounds _ hbound
  have hb0 : 0 ≤ b.2.1 := by rw [he]; exact hE0
  have hbw : b.2.1 ≤ b.2.2 := by rw [he, hwt]; exact hEW
  have h0 : 0 ≤ b.2.1 / b.2.2 := div_nonneg hb0 (le_of_lt hbpos)
  have h1 : b.2.1 / b.2.2 ≤ 1 := (div_le_one hbpos).2 hbw
  subst hqb
  constructor
  · exact mul_nonneg h0 (by norm_num)
  · have h2 : b.2.1 / b.2.2 * 100 ≤ 1 * 100 :=
      mul_le_mul_of_nonneg_right h1 (by norm_num)
    linarith

/-- One-assessment configuration for the out-of-range counterexample. -/
def overAssessments : List (String × AsmConfig) := [("A1", ⟨40, 100, "CLO1"⟩)]

/-- Column map for the out-of-range counterexample. -/
def overColMap : String → Option String :=
  fun n => if n = "A1" then some "A1" else none

/-- Marks row carrying 150 raw marks on an assessment whose full marks is 100. -/
def overMarks : String → Cell :=
  fun c => if c = "A1" then Cell.num 150 else Cell.blank

/-- Counterexample to C9 as stated: nothing clamps the scores, so a raw mark of
150 out of full marks 100 at weight 40 yields the CLO1 percentage 150, outside
`[0, 100]`. -/
theorem clo_range_cex :
    lookupScore (processStudent overAssessments overColMap "S1" (Cell.text "S")
      overMarks) "CLO1" = some 150 ∧ ¬ ((150 : ℚ) ≤ 100) := by
  constructor
  · norm_num +decide [processStudent, finalizeStudent, accumulateRow, rowStep,
      addToBucket, overAssessments, overColMap, overMarks, coerceMark, lookupScore,
      List.foldl_cons, List.filter_cons, List.find?_cons]
  · norm_num

/-- Witness for C9: the demo scenario satisfies both range hypotheses and its
emitted scores are certified to lie in `[0, 100]`. -/
theorem clo_range_spec_witness :
    (∀ p ∈ demoAssessments, 0 ≤ p.2.weight) ∧
    (∀ p ∈ demoAssessments, ∀ col, demoColMap p.1 = some col →
      0 ≤ coerceMark (demoMarks col) ∧ coerceMark (demoMarks col) ≤ p.2.full) ∧
    ∀ q ∈ (processStudent demoAssessments demoColMap "S1" (Cell.text "Demo")
      demoMarks).cloScores, 0 ≤ q.2 ∧ q.2 ≤ 100 := by
  have hw : ∀ p ∈ demoAssessments, 0 ≤ p.2.weight := by
    intro p hp
    fin_cases hp <;> norm_num [demoAssessments]
  have hm : ∀ p ∈ demoAssessments, ∀ col, demoColMap p.1 = some col →
      0 ≤ coerceMark (demoMarks col) ∧ coerceMark (demoMarks col) ≤ p.2.full := by
    intro p hp col hcol
    fin_cases hp
    · simp only [demoColMap] at hcol
      norm_num +decide at hcol
      subst hcol
      norm_num +decide [demoMarks, coerceMark]
    · simp only [demoColMap] at hcol
      norm_num +decide at hcol
      subst hcol
      norm_num +decide [demoMarks, coerceMark]
  exact ⟨hw, hm, clo_range_spec demoAssessments demoColMap "S1" (Cell.text "Demo")
    demoMarks hw hm⟩

/-- `row.get(name, default)` on a marks row: look the label up in the
(disambiguated) header and return that cell, `Cell.blank` standing for the
`NaN` a short row is padded with; `none` when the label is not a column. -/
def rowGet (cols : List String) (row : List Cell) (name : String) : Option Cell :=
  (cols.findIdx? fun c => c == name).map fun i => row.getD i Cell.blank

/-- `str(row.get("STUDENT ID", "")).strip()` (source line 136). -/
def sidOf (cols : List String) (row : List Cell) : String :=
  pyStrip (cellToString ((rowGet cols row "STUDENT ID").getD (Cell.text "")))

/-- The row guard of source line 137: the row is skipped when the stripped id
is shorter than two characters or lower-cases to `"nan"`. -/
def skipRow (cols : List String) (row : List Cell) : Bool :=
  (sidOf cols row).length < 2 || pyLower (sidOf cols row) == "nan"

/-- The student loop of source lines 135-171: every row whose id passes the
guard is processed into a record, reading the display name from the
`STUDENT NAME` column and marks by column label. -/
def processMarks (assessments : List (String × AsmConfig))
    (colMap : String → Option String) (cols : List String)
    (rows : List (List Cell)) : List StudentRecord :=
  rows.filterMap fun row =>
    if skipRow cols row then none
    else some (processStudent assessments colMap (sidOf cols row)
      ((rowGet cols row "STUDENT NAME").getD (Cell.text ""))
      fun c => (rowGet cols row c).getD Cell.blank)

/-- Course metadata extracted from the Setup sheet. -/
structure CourseInfo where
  name : String
  code : String
deriving DecidableEq

deriving instance DecidableEq for Except

/-- The widest row length of a sheet: the column count pandas gives the
DataFrame read from it. -/
def sheetWidth (s : List (List Cell)) : Nat :=
  (s.map List.length).foldl Nat.max 0

/-- The rectangular DataFrame pandas builds from a ragged sheet: every row
padded with `NaN` up to the sheet's column count. -/
def toDF (s : List (List Cell)) : List (List Cell) :=
  s.map fun r => r ++ List.replicate (sheetWidth s - r.length) Cell.blank

/-- `next((s for s in xls if <cond>), None)` over the workbook's sheet names
(source lines 64-65). -/
def findSheet (wb : List (String × List (List Cell))) (p : String → Bool) :
    Option String :=
  (wb.map (·.1)).find? p

/-- Workbook sheet lookup `xls[name]`. -/
def getSheet (wb : List (String × List (List Cell))) (name : String) :
    List (List Cell) :=
  ((wb.find? fun q => q.1 == name).map (·.2)).getD []

/-- `df.iloc[r, 1]` (source lines 78 and 81): pandas raises `IndexError` when
the frame has fewer than two columns — the uncaught exception reaches the
outer handler, whose message is the exception text — and otherwise yields the
row's cell at position 1 (`NaN` when that row is short). -/
def infoCell (width : Nat) (row : List Cell) : Except String Cell :=
  if width ≤ 1 then Except.error "single positional indexer is out-of-bounds"
  else Except.ok (row.getD 1 Cell.blank)

/-- One row of the course-info scan (source lines 75-82): a row whose joined
string contains `"Course Name"` (resp. `"Course Code"`) updates that field
from the cell in column 1, unless the cell prints as `"nan"`. -/
def extractInfoStep (width : Nat) (info : CourseInfo) (row : List Cell) :
    Except String CourseInfo := do
  let info2 ←
    if strIn "Course Name" (rowString row) then do
      let parts := cellToString (← infoCell width row)
      if parts ≠ "nan" then pure { info with name := parts } else pure info
    else pure info
  if strIn "Course Code" (rowString row) then do
    let parts := cellToString (← infoCell width row)
    if parts ≠ "nan" then pure { info2 with code := parts } else pure info2
  else pure info2

/-- The course-info scan over the first `min(15, len)` rows of the Setup sheet
(source lines 72-82). -/
def extractInfo (df : List (List Cell)) : Except String CourseInfo :=
  (df.take 15).foldlM (extractInfoStep (sheetWidth df)) ⟨"Unknown", "Unknown"⟩

/-- Python dict assignment `assessments[name] = cfg`: replaces in place when
the key is present, appends when it is fresh. -/
def upsert : List (String × AsmConfig) → String → AsmConfig → List (String × AsmConfig)
  | [], n, c => [(n, c)]
  | p :: rest, n, c => if p.1 = n then (n, c) :: rest else p :: upsert rest n c

/-- `row.get(label, default)` on the Setup table once its header row has been
assigned as the columns (source line 89): the column labels are the header
row's raw cells, matched by equality against the string label. -/
def setupGet (header : List Cell) (row : List Cell) (name : String) : Option Cell :=
  (header.findIdx? fun c => c == Cell.text name).map fun i => row.getD i Cell.blank

/-- The assessment-table parse of source lines 85-101: locate the header row
containing `"Assessment Name"` and `"Weightage"`; for every later row with a
non-empty, non-`"nan"` stripped name, read weight (default 0), full marks
(default 100) and CLO tag (default `"Unmapped"`); a failing `float()`
conversion hits the bare `except: pass` and drops that assessment; a repeated
name overwrites its earlier entry in place, as a Python dict does. -/
def parseAssessments (df : List (List Cell)) : List (String × AsmConfig) :=
  let h := find_header_row df ["Assessment Name", "Weightage"]
  if h = -1 then []
  else
    let header := df.getD h.toNat []
    (df.drop (h.toNat + 1)).foldl (fun acc row =>
      let name := pyStrip (cellToString ((setupGet header row "Assessment Name").getD
        (Cell.text "")))
      if name ≠ "" ∧ pyLower name ≠ "nan" then
        match cellToFloat ((setupGet header row "Weightage (%)").getD (Cell.num 0)),
            cellToFloat ((setupGet header row "Full Marks").getD (Cell.num 100)) with
        | some w, some f =>
          upsert acc name ⟨w, f,
            pyStrip (cellToString ((setupGet header row "CLO Tag").getD
              (Cell.text "Unmapped")))⟩
        | _, _ => acc
      else acc) []

/-- `process_single_course` (source lines 57-177): the whole per-file pipeline,
the outer `try/except` modelled as an `Except String` result.  Sheet location,
course-info extraction, assessment parsing, the marks-header search, the
duplicate-header fix, column mapping and the student loop run in source order;
the three explicit failure returns keep their exact messages. -/
def process_single_course (wb : List (String × List (List Cell))) :
    Except String (List StudentRecord × CourseInfo) :=
  match findSheet wb (fun s => strIn "Setup" s),
      findSheet wb (fun s => strIn "Table 1" s || strIn "Marks" s) with
  | some sSetup, some sMarks =>
    let dfSetup := toDF (getSheet wb sSetup)
    match extractInfo dfSetup with
    | Except.error e => Except.error e
    | Except.ok info =>
      let assessments := parseAssessments dfSetup
      if assessments.isEmpty then Except.error "No assessments found in Setup sheet."
      else
        let dfMarks := toDF (getSheet wb sMarks)
        let mh := find_header_row dfMarks ["STUDENT ID", "STUDENT NAME"]
        if mh = -1 then Except.error "Could not find Student ID header in Table 1."
        else
          let cleanHeader := fixDuplicateHeaders
            ((dfMarks.getD mh.toNat []).map cellToString)
          let colMap := buildColMap cleanHeader (assessments.map (·.1))
          Except.ok (processMarks assessments colMap cleanHeader
            (dfMarks.drop (mh.toNat + 1)), info)
  | _, _ => Except.error "Missing 'Setup' or 'Table 1' sheets."

lemma keep_eq_not_skip (cols : List String) (row : List Cell) :
    (decide (2 ≤ (sidOf cols row).length) && !(pyLower (sidOf cols row) == "nan"))
      = !(skipRow cols row) := by
  rw [skipRow, Bool.not_or, ← decide_not]
  congr 1
  rw [decide_eq_decide]
  omega

/-- A workbook whose marks rows all carry unusable student ids: one empty id
cell and one blank (`NaN`) id cell. -/
def noStudentWb : List (String × List (List Cell)) :=
  [("Setup", [[Cell.text "Assessment Name", Cell.text "Weightage (%)",
      Cell.text "Full Marks", Cell.text "CLO Tag"],
    [Cell.text "Quiz", Cell.num 40, Cell.num 100, Cell.text "CLO1"]]),
   ("Table 1", [[Cell.text "STUDENT ID", Cell.text "STUDENT NAME", Cell.text "Quiz"],
    [Cell.text "", Cell.text "Nobody", Cell.num 5],
    [Cell.blank, Cell.text "Ghost", Cell.num 7]])]

/-- C7 (amended): a data row is silently excluded from the output exactly when
its stripped student id is shorter than two characters or lower-cases to
`"nan"`; and a workbook whose marks rows are all excluded still succeeds with
zero student records (an `ok` result, not a structural error). -/
theorem row_skip_spec :
    (∀ (assessments : List (String × AsmConfig)) (colMap : String → Option String)
        (cols : List String) (rows : List (List Cell)),
      processMarks assessments colMap cols rows =
        (rows.filter fun row => decide (2 ≤ (sidOf cols row).length)
            && !(pyLower (sidOf cols row) == "nan")).map
          fun row => processStudent assessments colMap (sidOf cols row)
            ((rowGet cols row "STUDENT NAME").getD (Cell.text ""))
            fun c => (rowGet cols row c).getD Cell.blank) ∧
    process_single_course noStudentWb = Except.ok ([], ⟨"Unknown", "Unknown"⟩) := by
  constructor
  · intro assessments colMap cols rows
    rw [show (fun row => decide (2 ≤ (sidOf cols row).length)
          && !(pyLower (sidOf cols row) == "nan"))
        = fun row => !(skipRow cols row) from funext fun row => keep_eq_not_skip cols row]
    induction rows with
    | nil => rfl
    | cons row rest ih =>
      rw [processMarks] at ih ⊢
      rw [List.filterMap_cons, List.filter_cons]
      by_cases h : skipRow cols row
      · simp only [h, if_true, Bool.not_true, Bool.false_eq_true, if_false]
        exact ih
      · simp only [h, Bool.false_eq_true, if_false, Bool.not_false, if_true, List.map_cons]
        rw [ih]
  · decide

/-- Counterexample to C7 as stated: the id `"NaN"` is excluded by the code
(its lower-casing is `"nan"`), yet after stripping it is neither empty, nor
shorter than two characters, nor textually equal to `"nan"`. -/
theorem row_skip_claimed_cex :
    processMarks [] (fun _ => none) ["STUDENT ID", "STUDENT NAME"]
      [[Cell.text "NaN", Cell.text "Casey"]] = [] ∧
    sidOf ["STUDENT ID", "STUDENT NAME"] [Cell.text "NaN", Cell.text "Casey"] = "NaN" ∧
    ¬ (pyStrip "NaN" = "" ∨ (pyStrip "NaN").length < 2 ∨ pyStrip "NaN" = "nan") := by
  refine ⟨by decide, by decide, by decide⟩

/-- A Setup sheet narrower than two columns whose single cell mentions
`Course Name`: the info scan's `iloc[r, 1]` faults before the assessment check
can run. -/
def narrowWb : List (String × List (List Cell)) :=
  [("Setup", [[Cell.text "Course Name"]]), ("Table 1", [])]

/-- Workbook with an empty Setup sheet: no assessments can be parsed. -/
def emptySetupWb : List (String × List (List Cell)) :=
  [("Setup", []), ("Table 1", [])]

/-- Workbook with a valid assessment table but an empty marks sheet: the
student-id header cannot be found. -/
def noHeaderWb : List (String × List (List Cell)) :=
  [("Setup", [[Cell.text "Assessment Name", Cell.text "Weightage (%)",
      Cell.text "Full Marks", Cell.text "CLO Tag"],
    [Cell.text "Quiz", Cell.num 40, Cell.num 100, Cell.text "CLO1"]]),
   ("Table 1", [])]

/-- C8 (amended): `process_single_course` always returns a result pair — an
`ok` value or an error message — and the three structural failures produce
their specific messages: missing Setup/marks sheet; no assessments parsed
(provided the course-info scan did not fault first); student-id header not
found (same proviso). -/
theorem per_file_errors_spec :
    (∀ wb : List (String × List (List Cell)),
      (∃ v, process_single_course wb = Except.ok v) ∨
      (∃ msg, process_single_course wb = Except.error msg)) ∧
    (∀ wb : List (String × List (List Cell)),
      (findSheet wb (fun s => strIn "Setup" s) = none ∨
        findSheet wb (fun s => strIn "Table 1" s || strIn "Marks" s) = none) →
      process_single_course wb = Except.error "Missing 'Setup' or 'Table 1' sheets.") ∧
    (∀ (wb : List (String × List (List Cell))) (sSetup sMarks : String)
        (info : CourseInfo),
      findSheet wb (fun s => strIn "Setup" s) = some sSetup →
      findSheet wb (fun s => strIn "Table 1" s || strIn "Marks" s) = some sMarks →
      extractInfo (toDF (getSheet wb sSetup)) = Except.ok info →
      parseAssessments (toDF (getSheet wb sSetup)) = [] →
      process_single_course wb = Except.error "No assessments found in Setup sheet.") ∧
    (∀ (wb : List (String × List (List Cell))) (sSetup sMarks : String)
        (info : CourseInfo),
      findSheet wb (fun s => strIn "Setup" s) = some sSetup →
      findSheet wb (fun s => strIn "Table 1" s || strIn "Marks" s) = some sMarks →
      extractInfo (toDF (getSheet wb sSetup)) = Except.ok info →
      parseAssessments (toDF (getSheet wb sSetup)) ≠ [] →
      find_header_row (toDF (getSheet wb sMarks)) ["STUDENT ID", "STUDENT NAME"] = -1 →
      process_single_course wb =
        Except.error "Could not find Student ID header in Table 1.") := by
  refine ⟨?_, ?_, ?_, ?_⟩
  · intro wb
    cases h : process_single_course wb with
    | error e => exact Or.inr ⟨e, rfl⟩
    | ok v => exact Or.inl ⟨v, rfl⟩
  · intro wb hor
    rcases hor with h1 | h2
    · simp only [process_single_course, h1]
    · cases h1 : findSheet wb (fun s => strIn "Setup" s) with
      | none => simp only [process_single_course, h1]
      | some s => simp only [process_single_course, h1, h2]
  · intro wb sSetup sMarks info h1 h2 h3 h4
    simp only [process_single_course, h1, h2, h3, h4, List.isEmpty_nil, if_true]
  · intro wb sSetup sMarks info h1 h2 h3 h4 h5
    have h4b : (parseAssessments (toDF (getSheet wb sSetup))).isEmpty = false := by
      cases hp : parseAssessments (toDF (getSheet wb sSetup)) with
      | nil => exact absurd hp h4
      | cons a l => rfl
    simp only [process_single_course, h1, h2, h3, h4b, Bool.false_eq_true, if_false, h5,
      if_true]

/-- Counterexample to C8 as stated: on `narrowWb` no assessments can be parsed,
yet the returned message is the indexer exception text from the course-info
scan, not the message naming the missing assessment structure. -/
theorem info_extraction_preempts_cex :
    process_single_course narrowWb =
      Except.error "single positional indexer is out-of-bounds" ∧
    parseAssessments (toDF (getSheet narrowWb "Setup")) = [] ∧
    findSheet narrowWb (fun s => strIn "Setup" s) = some "Setup" ∧
    findSheet narrowWb (fun s => strIn "Table 1" s || strIn "Marks" s) = some "Table 1" ∧
    "single positional indexer is out-of-bounds"
      ≠ "No assessments found in Setup sheet." := by
  refine ⟨by decide, by decide, by decide, by decide, by decide⟩

/-- Witness for C8: the three structural failure conjuncts applied to concrete
workbooks produce their exact messages. -/
theorem per_file_errors_witness :
    process_single_course [] = Except.error "Missing 'Setup' or 'Table 1' sheets." ∧
    process_single_course emptySetupWb =
      Except.error "No assessments found in Setup sheet." ∧
    process_single_course noHeaderWb =
      Except.error "Could not find Student ID header in Table 1." :=
  ⟨per_file_errors_spec.2.1 [] (Or.inl (by decide)),
    per_file_errors_spec.2.2.1 emptySetupWb "Setup" "Table 1" ⟨"Unknown", "Unknown"⟩
      (by decide) (by decide) (by decide) (by decide),
    per_file_errors_spec.2.2.2 noHeaderWb "Setup" "Table 1" ⟨"Unknown", "Unknown"⟩
      (by decide) (by decide) (by decide) (by decide) (by decide)⟩

end UnimyCLO
